import Mathlib

/-!
Shallow embedding of the block/header codec of `cos/bc/block.go` (package
`bc`), together with the primitive codec, sticky-error reader, hash and
transaction payload collaborators that the file uses.  Bytes are modelled
as natural numbers below 256, byte buffers as `List Nat`, machine integers
as `Nat` with explicit range hypotheses, and the `errors.Reader` byte
cursor as an explicit state threaded through the decoding functions.
-/

namespace ChainBC

/-- Codec-level error taxonomy: fewer bytes than required (TruncatedInput)
or an invalid variable-length integer representation (MalformedValue). -/
inductive CodecErr where
  | truncated
  | malformed
deriving DecidableEq

/-- Modelled from the spec: the sticky-error byte reader of the missing
`chain/errors` package (`errors.Reader` over a `bytes.Reader`).  The first
error is recorded and every later read sees it and performs no input
consumption. -/
structure ErrReader where
  input : List Nat
  err : Option CodecErr
deriving DecidableEq

/-- Record an error in the reader, keeping an already-present first error. -/
def setErr (r : ErrReader) (e : CodecErr) : ErrReader :=
  match r.err with
  | some _ => r
  | none => { r with err := some e }

/-- Modelled from the spec: read a single byte from the cursor; at end of
input a TruncatedInput error is recorded and 0 is returned. -/
def readByte (r : ErrReader) : Nat × ErrReader :=
  match r.err with
  | some _ => (0, r)
  | none =>
    match r.input with
    | [] => (0, { r with err := some CodecErr.truncated })
    | b :: rest => (b, { input := rest, err := none })

/-- Modelled from the spec: `io.ReadFull` into a buffer holding `old`.
With an error already recorded nothing is read; with fewer than `k` bytes
remaining the available bytes are consumed, the rest of the buffer keeps
its old contents, and TruncatedInput is recorded. -/
def readFull (k : Nat) (old : List Nat) (r : ErrReader) : List Nat × ErrReader :=
  match r.err with
  | some _ => (old, r)
  | none =>
    if k ≤ r.input.length then
      (r.input.take k, { input := r.input.drop k, err := none })
    else
      (r.input ++ old.drop r.input.length, { input := [], err := some CodecErr.truncated })

/-- Fuelled worker for the variable-length integer encoder: one 7-bit
group per unit of fuel. -/
def writeUvarintAux : Nat → Nat → List Nat
  | 0, n => [n]
  | fuel + 1, n =>
    if n < 128 then [n] else (n % 128 + 128) :: writeUvarintAux fuel (n / 128)

/-- Modelled from the spec: minimal LEB128-style variable-length unsigned
integer encoding of the missing `chain/encoding/blockchain` package; each
value has exactly one valid byte sequence.  Ten 7-bit groups cover the
whole unsigned 64-bit domain the codec carries. -/
def writeUvarint (n : Nat) : List Nat :=
  writeUvarintAux 10 n

/-- Loop of the variable-length integer decoder: `fuel` remaining groups,
`shift` 7-bit groups already consumed, `acc` the value so far.  A
non-minimal (trailing zero group) or overflowing (not below 2^64)
representation is a MalformedValue error. -/
def readUvarintLoop : Nat → Nat → Nat → ErrReader → Nat × ErrReader
  | 0, _, _, r => (0, setErr r CodecErr.malformed)
  | fuel + 1, shift, acc, r =>
    let p := readByte r
    match p.2.err with
    | some _ => (0, p.2)
    | none =>
      if 128 ≤ p.1 then
        readUvarintLoop fuel (shift + 1) (acc + (p.1 - 128) * 2 ^ (7 * shift)) p.2
      else if p.1 = 0 ∧ shift ≠ 0 then
        (0, setErr p.2 CodecErr.malformed)
      else
        let v := acc + p.1 * 2 ^ (7 * shift)
        if v < 2 ^ 64 then (v, p.2) else (0, setErr p.2 CodecErr.malformed)

/-- Modelled from the spec: decode a variable-length unsigned integer
(at most ten 7-bit groups for a 64-bit value); 0 is returned on error. -/
def readUvarint (r : ErrReader) : Nat × ErrReader :=
  readUvarintLoop 10 0 0 r

/-- Little-endian fixed-width encoding of `n` on `k` bytes. -/
def natToBytesLE : Nat → Nat → List Nat
  | 0, _ => []
  | k + 1, n => n % 256 :: natToBytesLE k (n / 256)

/-- Little-endian interpretation of a byte list. -/
def bytesToNatLE (l : List Nat) : Nat :=
  l.foldr (fun b acc => b + 256 * acc) 0

/-- Modelled from the spec: `blockchain.WriteUint32`, fixed 4-byte order. -/
def writeUint32 (n : Nat) : List Nat := natToBytesLE 4 n

/-- Modelled from the spec: `blockchain.WriteUint64`, fixed 8-byte order. -/
def writeUint64 (n : Nat) : List Nat := natToBytesLE 8 n

/-- Modelled from the spec: `blockchain.ReadUint32`, fixed 4 bytes from a
zeroed buffer. -/
def readUint32 (r : ErrReader) : Nat × ErrReader :=
  let p := readFull 4 (List.replicate 4 0) r
  (bytesToNatLE p.1, p.2)

/-- Modelled from the spec: `blockchain.ReadUint64`, fixed 8 bytes from a
zeroed buffer. -/
def readUint64 (r : ErrReader) : Nat × ErrReader :=
  let p := readFull 8 (List.replicate 8 0) r
  (bytesToNatLE p.1, p.2)

/-- Modelled from the spec: `blockchain.WriteBytes`, a length-prefixed byte
string (length as the variable-length integer, then the raw bytes). -/
def writeBytes (l : List Nat) : List Nat :=
  writeUvarint l.length ++ l

/-- Modelled from the spec: `blockchain.ReadBytes`, the variable-length
count followed by that many raw bytes read into a fresh zeroed buffer. -/
def readBytes (r : ErrReader) : List Nat × ErrReader :=
  let p := readUvarint r
  readFull p.1 (List.replicate p.1 0) p.2

/-- Modelled from the spec: the cryptographic digest of the missing
`chain/crypto/hash256` package, as an opaque deterministic 32-byte
function of the input bytes. -/
def hash256 (msg : List Nat) : List Nat :=
  natToBytesLE 32 (msg.foldl (fun acc b => (acc * 131 + b + 1) % 2 ^ 256) 0)

/-- BlockHeader of `cos/bc/block.go`: Version uint32, Height uint64,
PreviousBlockHash [32]byte, Commitment []byte, Timestamp uint64,
SignatureScript []byte, OutputScript []byte. -/
structure BlockHeader where
  Version : Nat
  Height : Nat
  PreviousBlockHash : List Nat
  Commitment : List Nat
  Timestamp : Nat
  SignatureScript : List Nat
  OutputScript : List Nat
deriving DecidableEq

/-- The Go zero value of `BlockHeader` (a fresh receiver). -/
def BlockHeader.zero : BlockHeader :=
  { Version := 0, Height := 0, PreviousBlockHash := List.replicate 32 0,
    Commitment := [], Timestamp := 0, SignatureScript := [], OutputScript := [] }

/-- `BlockHeader.writeTo`: version, height, previous hash (raw 32 bytes),
commitment (length-prefixed), timestamp, signature script (length-prefixed,
blanked when forSigning), output script (length-prefixed). -/
def BlockHeader.writeTo (bh : BlockHeader) (forSigning : Bool) : List Nat :=
  writeUint32 bh.Version ++ writeUint64 bh.Height ++ bh.PreviousBlockHash ++
    writeBytes bh.Commitment ++ writeUint64 bh.Timestamp ++
    (if forSigning then writeBytes [] else writeBytes bh.SignatureScript) ++
    writeBytes bh.OutputScript

/-- `BlockHeader.WriteTo`: the Full-mode encoding (a `bytes.Buffer` sink
cannot fail, so the written bytes are the whole observable result). -/
def BlockHeader.WriteTo (bh : BlockHeader) : List Nat := bh.writeTo false

/-- `BlockHeader.WriteForSigTo`: the ForSigning-mode encoding. -/
def BlockHeader.WriteForSigTo (bh : BlockHeader) : List Nat := bh.writeTo true

/-- `BlockHeader.readFrom`: decode all fields in the fixed order into the
receiver `bh`, threading the sticky-error reader. -/
def BlockHeader.readFrom (bh : BlockHeader) (r : ErrReader) : BlockHeader × ErrReader :=
  let pv := readUint32 r
  let ph := readUint64 pv.2
  let pp := readFull 32 bh.PreviousBlockHash ph.2
  let pc := readBytes pp.2
  let pt := readUint64 pc.2
  let ps := readBytes pt.2
  let po := readBytes ps.2
  ({ Version := pv.1, Height := ph.1, PreviousBlockHash := pp.1,
     Commitment := pc.1, Timestamp := pt.1, SignatureScript := ps.1,
     OutputScript := po.1 }, po.2)

/-- `BlockHeader.Hash`: digest of the Full encoding. -/
def BlockHeader.Hash (bh : BlockHeader) : List Nat := hash256 (bh.writeTo false)

/-- `BlockHeader.HashForSig`: digest of the ForSigning encoding. -/
def BlockHeader.HashForSig (bh : BlockHeader) : List Nat := hash256 (bh.writeTo true)

/-- A Go `time.Time` as observable here: seconds relative to the Unix
epoch, nanoseconds, and whether the location is UTC. -/
structure GoTime where
  sec : Int
  nsec : Nat
  utc : Bool
deriving DecidableEq

/-- Go conversion `int64(u)` of a uint64 value: wraps to negative for
values at or above 2^63. -/
def toInt64 (n : Nat) : Int :=
  if n < 2 ^ 63 then (n : Int) else (n : Int) - 2 ^ 64

/-- `BlockHeader.Time`: `time.Unix(int64(bh.Timestamp), 0).UTC()`. -/
def BlockHeader.Time (bh : BlockHeader) : GoTime :=
  { sec := toInt64 bh.Timestamp, nsec := 0, utc := true }

/-- `copy(dst[i:j], src)` on a list: overwrite `min (j - i) src.length`
elements of `dst` starting at index `i`. -/
def copyInto (dst : List Nat) (i j : Nat) (src : List Nat) : List Nat :=
  let k := min (j - i) src.length
  dst.take i ++ src.take k ++ dst.drop (i + k)

/-- `BlockHeader.TxRoot`: bytes [0,32) of Commitment, or the zero digest
when Commitment is shorter than 32 bytes. -/
def BlockHeader.TxRoot (bh : BlockHeader) : List Nat :=
  if 32 ≤ bh.Commitment.length then bh.Commitment.take 32 else List.replicate 32 0

/-- `BlockHeader.SetTxRoot`: replace Commitment by a fresh 32-byte zero
buffer when shorter than 32 bytes, then overwrite bytes [0,32). -/
def BlockHeader.SetTxRoot (bh : BlockHeader) (h : List Nat) : BlockHeader :=
  let c := if bh.Commitment.length < 32 then List.replicate 32 0 else bh.Commitment
  { bh with Commitment := copyInto c 0 32 h }

/-- `BlockHeader.StateRoot`: bytes [32,64) of Commitment, or the zero
digest when Commitment is shorter than 64 bytes. -/
def BlockHeader.StateRoot (bh : BlockHeader) : List Nat :=
  if 64 ≤ bh.Commitment.length then (bh.Commitment.drop 32).take 32
  else List.replicate 32 0

/-- `BlockHeader.SetStateRoot`: grow Commitment to 64 bytes (copying the
old contents into the front of a zeroed buffer) when shorter than 64
bytes, then overwrite bytes [32,64). -/
def BlockHeader.SetStateRoot (bh : BlockHeader) (h : List Nat) : BlockHeader :=
  let c := if bh.Commitment.length < 64 then
    copyInto (List.replicate 64 0) 0 64 bh.Commitment
  else bh.Commitment
  { bh with Commitment := copyInto c 32 64 h }

/-- Modelled from the spec: a transaction's canonical-encodable payload
(the `TxData` of the missing `cos/bc` transaction file), kept opaque as a
byte string. -/
structure TxData where
  payload : List Nat
deriving DecidableEq

/-- Modelled from the spec: the canonical payload encoding, a
length-prefixed byte string under the primitive codec. -/
def TxData.writeTo (d : TxData) : List Nat := writeBytes d.payload

/-- Modelled from the spec: decode a transaction payload from the cursor. -/
def TxData.readFrom (r : ErrReader) : TxData × ErrReader :=
  let p := readBytes r
  (⟨p.1⟩, p.2)

/-- Modelled from the spec: a transaction pairs its payload with the
identity digest cached at construction. -/
structure Tx where
  data : TxData
  hash : List Nat
deriving DecidableEq

/-- Modelled from the spec: `NewTx` computes the identity digest from the
canonical payload encoding exactly once. -/
def NewTx (data : TxData) : Tx :=
  { data := data, hash := hash256 data.writeTo }

/-- `Tx.WriteTo`: a transaction writes its canonical payload encoding. -/
def Tx.WriteTo (tx : Tx) : List Nat := tx.data.writeTo

/-- Block of `cos/bc/block.go`: an embedded BlockHeader plus the ordered
transaction list. -/
structure Block where
  header : BlockHeader
  Transactions : List Tx
deriving DecidableEq

/-- The Go zero value of `Block` (a fresh receiver). -/
def Block.zero : Block := { header := BlockHeader.zero, Transactions := [] }

/-- The transaction-list loop of `Block.readFrom`: it runs exactly `n`
iterations (the loop counter is decremented unconditionally), decoding a
fresh zero-valued `TxData` each time and appending `NewTx` of it. -/
def Block.readFromLoop : Nat → List Tx → ErrReader → List Tx × ErrReader
  | 0, txs, r => (txs, r)
  | n + 1, txs, r =>
    let p := TxData.readFrom r
    Block.readFromLoop n (txs ++ [NewTx p.1]) p.2

/-- `Block.readFrom`: decode the header into the embedded receiver, read
the transaction count, then append the decoded transactions. -/
def Block.readFrom (b : Block) (r : ErrReader) : Block × ErrReader :=
  let ph := b.header.readFrom r
  let pn := readUvarint ph.2
  let pt := Block.readFromLoop pn.1 b.Transactions pn.2
  ({ header := ph.1, Transactions := pt.1 }, pt.2)

/-- `Block.writeTo`: the header in the requested mode; in Full mode also
the transaction count and each transaction's payload encoding in order. -/
def Block.writeTo (b : Block) (forSigning : Bool) : List Nat :=
  b.header.writeTo forSigning ++
    (if forSigning then []
     else writeUvarint b.Transactions.length ++
       (b.Transactions.map Tx.WriteTo).flatten)

/-- `Block.WriteTo`: the Full-mode block encoding. -/
def Block.WriteTo (b : Block) : List Nat := b.writeTo false

/-- A database driver value handed to `Scan` (Go `interface{}`): a byte
slice or one of the other driver value shapes. -/
inductive DriverValue where
  | bytes : List Nat → DriverValue
  | int : Int → DriverValue
  | str : String → DriverValue
  | null : DriverValue
deriving DecidableEq

/-- Error surfaced by `Scan`: the distinct InvalidStoredValue error for a
non-byte-slice input ("Scan must receive a byte slice"), or a codec error
from decoding. -/
inductive ScanErr where
  | invalidStoredValue
  | codec : CodecErr → ScanErr
deriving DecidableEq

/-- `BlockHeader.Scan`: reject a non-byte-slice value before any decoding,
otherwise decode from a fresh reader over the bytes and return the
receiver state together with the reader's first recorded error. -/
def BlockHeader.Scan (bh : BlockHeader) (val : DriverValue) :
    BlockHeader × Option ScanErr :=
  match val with
  | DriverValue.bytes buf =>
    let p := bh.readFrom { input := buf, err := none }
    (p.1, p.2.err.map ScanErr.codec)
  | _ => (bh, some ScanErr.invalidStoredValue)

/-- `Block.Scan`: reject a non-byte-slice value before any decoding,
otherwise decode from a fresh reader over the bytes and return the
receiver state together with the reader's first recorded error. -/
def Block.Scan (b : Block) (val : DriverValue) : Block × Option ScanErr :=
  match val with
  | DriverValue.bytes buf =>
    let p := b.readFrom { input := buf, err := none }
    (p.1, p.2.err.map ScanErr.codec)
  | _ => (b, some ScanErr.invalidStoredValue)

/-- `BlockHeader.Value`: the Full-mode encoding handed to the driver. -/
def BlockHeader.Value (bh : BlockHeader) : DriverValue :=
  DriverValue.bytes bh.WriteTo

/-- `Block.Value`: the Full-mode encoding handed to the driver. -/
def Block.Value (b : Block) : DriverValue :=
  DriverValue.bytes b.WriteTo

/-- A list is a byte string: every entry is below 256. -/
def IsByteList (l : List Nat) : Prop := ∀ b ∈ l, b < 256

instance (l : List Nat) : Decidable (IsByteList l) :=
  inferInstanceAs (Decidable (∀ b ∈ l, b < 256))

/-- Field ranges of a Go `BlockHeader` value: machine-integer fields in
range, the previous-block hash exactly 32 bytes, byte strings made of
bytes with lengths representable by the 64-bit codec. -/
def BlockHeader.WellFormed (bh : BlockHeader) : Prop :=
  bh.Version < 2 ^ 32 ∧ bh.Height < 2 ^ 64 ∧
    bh.PreviousBlockHash.length = 32 ∧ IsByteList bh.PreviousBlockHash ∧
    IsByteList bh.Commitment ∧ bh.Commitment.length < 2 ^ 64 ∧
    bh.Timestamp < 2 ^ 64 ∧
    IsByteList bh.SignatureScript ∧ bh.SignatureScript.length < 2 ^ 64 ∧
    IsByteList bh.OutputScript ∧ bh.OutputScript.length < 2 ^ 64

instance (bh : BlockHeader) : Decidable bh.WellFormed :=
  inferInstanceAs (Decidable (_ ∧ _))

/-- Field ranges of a Go `Block` value: a well-formed header, a
representable transaction count, and transactions built by `NewTx` from
byte-string payloads of representable length. -/
def Block.WellFormed (b : Block) : Prop :=
  b.header.WellFormed ∧ b.Transactions.length < 2 ^ 64 ∧
    ∀ tx ∈ b.Transactions,
      tx = NewTx tx.data ∧ IsByteList tx.data.payload ∧
        tx.data.payload.length < 2 ^ 64

instance (b : Block) : Decidable b.WellFormed :=
  inferInstanceAs (Decidable (_ ∧ _))

/-! ## Primitive codec lemmas -/

theorem natToBytesLE_length (k n : Nat) : (natToBytesLE k n).length = k := by
  induction k generalizing n with
  | zero => rfl
  | succ k ih => simp [natToBytesLE, ih]

theorem bytesToNat_natToBytes (k n : Nat) (h : n < 256 ^ k) :
    bytesToNatLE (natToBytesLE k n) = n := by
  induction k generalizing n with
  | zero =>
    have : n = 0 := by simpa using h
    simp [this, natToBytesLE, bytesToNatLE]
  | succ k ih =>
    have h' : n < 256 ^ k * 256 := by
      rw [pow_succ] at h; exact h
    have hd : n / 256 < 256 ^ k := by omega
    calc bytesToNatLE (natToBytesLE (k + 1) n)
        = n % 256 + 256 * bytesToNatLE (natToBytesLE k (n / 256)) := rfl
      _ = n % 256 + 256 * (n / 256) := by rw [ih _ hd]
      _ = n := by omega

theorem readFull_exact (k : Nat) (ys rest old : List Nat) (h : ys.length = k) :
    readFull k old { input := ys ++ rest, err := none } =
      (ys, { input := rest, err := none }) := by
  subst h
  simp [readFull, List.take_left, List.drop_left, Nat.le_add_right]

theorem readUint32_exact (v : Nat) (rest : List Nat) (h : v < 2 ^ 32) :
    readUint32 { input := natToBytesLE 4 v ++ rest, err := none } =
      (v, { input := rest, err := none }) := by
  have h4 : (natToBytesLE 4 v).length = 4 := natToBytesLE_length 4 v
  simp only [readUint32, readFull_exact 4 _ rest _ h4]
  rw [bytesToNat_natToBytes 4 v (by norm_num at h ⊢; omega)]

theorem readUint64_exact (v : Nat) (rest : List Nat) (h : v < 2 ^ 64) :
    readUint64 { input := natToBytesLE 8 v ++ rest, err := none } =
      (v, { input := rest, err := none }) := by
  have h8 : (natToBytesLE 8 v).length = 8 := natToBytesLE_length 8 v
  simp only [readUint64, readFull_exact 8 _ rest _ h8]
  rw [bytesToNat_natToBytes 8 v (by norm_num at h ⊢; omega)]

theorem readUvarintLoop_write (fuel : Nat) :
    ∀ n shift acc rest, 1 ≤ fuel → n < 128 ^ fuel → (shift = 0 ∨ 1 ≤ n) →
      acc + n * 2 ^ (7 * shift) < 2 ^ 64 →
      readUvarintLoop fuel shift acc
          { input := writeUvarintAux fuel n ++ rest, err := none } =
        (acc + n * 2 ^ (7 * shift), { input := rest, err := none }) := by
  induction fuel with
  | zero => intro n shift acc rest hf _ _ _; omega
  | succ fuel ih =>
    intro n shift acc rest _hf hn h1 h3
    simp only [writeUvarintAux]
    by_cases hlt : n < 128
    · have hcond : ¬(n = 0 ∧ shift ≠ 0) := by
        rcases h1 with h | h <;> omega
      simp [readUvarintLoop, readByte, hlt, Nat.not_le.mpr hlt, hcond, h3]
      intro hc
      exact absurd hc (by omega)
    · have hge : 128 ≤ n := Nat.not_lt.mp hlt
      have hq1 : 1 ≤ n / 128 := (Nat.one_le_div_iff (by omega)).mpr hge
      have hpow : n < 128 ^ fuel * 128 := by
        rw [← pow_succ]; exact hn
      have hqn : n / 128 < 128 ^ fuel := by omega
      have hfuel : 1 ≤ fuel := by
        rcases Nat.eq_zero_or_pos fuel with h0 | h0
        · subst h0; simp at hqn; omega
        · exact h0
      have key : acc + (n % 128 + 128 - 128) * 2 ^ (7 * shift) +
          n / 128 * 2 ^ (7 * (shift + 1)) = acc + n * 2 ^ (7 * shift) := by
        have e : (2:Nat) ^ (7 * (shift + 1)) = 2 ^ (7 * shift) * 128 := by
          rw [Nat.mul_succ, pow_add]; norm_num
        have e2 : n % 128 + 128 - 128 = n % 128 := by omega
        rw [e, e2]
        conv_rhs => rw [← Nat.div_add_mod n 128]
        ring
      have hacc : acc + (n % 128 + 128 - 128) * 2 ^ (7 * shift) +
          n / 128 * 2 ^ (7 * (shift + 1)) < 2 ^ 64 := by
        rw [key]; exact h3
      rw [if_neg hlt]
      simp only [readUvarintLoop, readByte, List.cons_append]
      have hb : 128 ≤ n % 128 + 128 := by omega
      rw [if_pos hb]
      rw [ih (n / 128) (shift + 1) (acc + (n % 128 + 128 - 128) * 2 ^ (7 * shift))
        rest hfuel hqn (Or.inr hq1) hacc, key]

theorem readUvarint_write (n : Nat) (rest : List Nat) (h : n < 2 ^ 64) :
    readUvarint { input := writeUvarint n ++ rest, err := none } =
      (n, { input := rest, err := none }) := by
  have h10 : n < 128 ^ 10 := by
    have : (2:Nat) ^ 64 ≤ 128 ^ 10 := by norm_num
    omega
  have := readUvarintLoop_write 10 n 0 0 rest (by norm_num) h10 (Or.inl rfl)
    (by simpa using h)
  simpa [readUvarint, writeUvarint] using this

theorem readBytes_write (l rest : List Nat) (h : l.length < 2 ^ 64) :
    readBytes { input := writeBytes l ++ rest, err := none } =
      (l, { input := rest, err := none }) := by
  simp only [readBytes, writeBytes, List.append_assoc]
  rw [readUvarint_write l.length (l ++ rest) h]
  exact readFull_exact l.length l rest _ rfl

/-! ## Header and block decode/encode helpers -/

theorem readFrom_writeTo_header (bh : BlockHeader) (hwf : bh.WellFormed)
    (old : BlockHeader) (rest : List Nat) :
    BlockHeader.readFrom old { input := bh.writeTo false ++ rest, err := none } =
      (bh, { input := rest, err := none }) := by
  obtain ⟨h1, h2, h3, _, _, h6, h7, _, h9, _, h11⟩ := hwf
  simp only [BlockHeader.readFrom, BlockHeader.writeTo, writeUint32, writeUint64,
    List.append_assoc, Bool.false_eq_true, if_false]
  rw [readUint32_exact _ _ h1]
  rw [readUint64_exact _ _ h2]
  rw [readFull_exact 32 _ _ _ h3]
  rw [readBytes_write _ _ h6]
  rw [readUint64_exact _ _ h7]
  rw [readBytes_write _ _ h9]
  rw [readBytes_write _ _ h11]

theorem readFromLoop_write (txs : List Tx)
    (hwf : ∀ tx ∈ txs, tx = NewTx tx.data ∧ IsByteList tx.data.payload ∧
      tx.data.payload.length < 2 ^ 64) :
    ∀ (acc : List Tx) (rest : List Nat),
    Block.readFromLoop txs.length acc
        { input := (txs.map Tx.WriteTo).flatten ++ rest, err := none } =
      (acc ++ txs, { input := rest, err := none }) := by
  induction txs with
  | nil => intro acc rest; simp [Block.readFromLoop]
  | cons tx txs ih =>
    intro acc rest
    obtain ⟨he, _, hlen⟩ := hwf tx (by simp)
    simp only [List.map_cons, List.flatten_cons, List.length_cons,
      List.append_assoc, Block.readFromLoop, TxData.readFrom, Tx.WriteTo,
      TxData.writeTo]
    rw [readBytes_write _ _ hlen]
    have hrec := ih (fun t ht => hwf t (by simp [ht])) (acc ++ [NewTx tx.data]) rest
    simp only [Tx.WriteTo, TxData.writeTo] at hrec
    rw [hrec, ← he]
    simp

theorem readFrom_writeTo_block (b : Block) (hwf : b.WellFormed) (old : Block)
    (rest : List Nat) :
    Block.readFrom old { input := b.writeTo false ++ rest, err := none } =
      ({ header := b.header, Transactions := old.Transactions ++ b.Transactions },
        { input := rest, err := none }) := by
  obtain ⟨hh, hn, ht⟩ := hwf
  simp only [Block.writeTo, Block.readFrom, List.append_assoc, Bool.false_eq_true,
    if_false]
  rw [readFrom_writeTo_header b.header hh old.header]
  rw [readUvarint_write _ _ hn]
  rw [readFromLoop_write b.Transactions ht old.Transactions rest]

theorem readFromLoop_acc (n : Nat) :
    ∀ (acc : List Tx) (r : ErrReader),
      ∃ l, (Block.readFromLoop n acc r).1 = acc ++ l := by
  induction n with
  | zero => intro acc r; exact ⟨[], by simp [Block.readFromLoop]⟩
  | succ n ih =>
    intro acc r
    obtain ⟨l, hl⟩ := ih (acc ++ [NewTx (TxData.readFrom r).1]) (TxData.readFrom r).2
    refine ⟨NewTx (TxData.readFrom r).1 :: l, ?_⟩
    simp only [Block.readFromLoop]
    rw [hl]
    simp

/-! ## Commitment accessor normal forms -/

theorem setTxRoot_commitment (bh : BlockHeader) (d : List Nat)
    (hd : d.length = 32) :
    (bh.SetTxRoot d).Commitment = d ++ bh.Commitment.drop 32 := by
  by_cases h : bh.Commitment.length < 32
  · have hdrop : bh.Commitment.drop 32 = [] := by
      apply List.drop_eq_nil_of_le; omega
    simp [BlockHeader.SetTxRoot, copyInto, h, hd, hdrop,
      List.take_of_length_le (le_of_eq hd), List.drop_replicate]
  · simp [BlockHeader.SetTxRoot, copyInto, h, hd,
      List.take_of_length_le (le_of_eq hd)]

theorem setStateRoot_commitment (bh : BlockHeader) (d : List Nat)
    (hd : d.length = 32) :
    (bh.SetStateRoot d).Commitment =
      (bh.Commitment ++ List.replicate (64 - bh.Commitment.length) 0).take 32 ++
        d ++ bh.Commitment.drop 64 := by
  have htake : d.take 32 = d := List.take_of_length_le (le_of_eq hd)
  have hm2 : min (64 - 32) d.length = 32 := by omega
  by_cases h : bh.Commitment.length < 64
  · have hdrop : bh.Commitment.drop 64 = [] := by
      apply List.drop_eq_nil_of_le; omega
    have hmin : min (64 - 0) bh.Commitment.length = bh.Commitment.length := by
      omega
    have hgrow : copyInto (List.replicate 64 0) 0 64 bh.Commitment =
        bh.Commitment ++ List.replicate (64 - bh.Commitment.length) 0 := by
      simp only [copyInto, hmin, List.take_zero, List.nil_append, Nat.zero_add,
        List.take_length, List.drop_replicate]
    have hcdrop : (bh.Commitment ++
        List.replicate (64 - bh.Commitment.length) 0).drop (32 + 32) = [] := by
      apply List.drop_eq_nil_of_le
      rw [List.length_append, List.length_replicate]
      omega
    simp only [BlockHeader.SetStateRoot, if_pos h]
    rw [hgrow]
    simp only [copyInto, hm2, htake, hcdrop, hdrop, List.append_nil]
  · have hz : 64 - bh.Commitment.length = 0 := by omega
    have hcdrop : bh.Commitment.drop (32 + 32) = bh.Commitment.drop 64 := rfl
    simp only [BlockHeader.SetStateRoot, if_neg h, copyInto, hm2, htake, hcdrop,
      hz, List.replicate_zero, List.append_nil]

theorem take32_pad (l : List Nat) :
    (l ++ List.replicate (64 - l.length) 0).take 32 =
      l.take 32 ++ List.replicate (32 - min 32 l.length) 0 := by
  rw [List.take_append_eq_append_take, List.take_replicate]
  have e : min (32 - l.length) (64 - l.length) = 32 - min 32 l.length := by omega
  rw [e]

/-! ## Sample values -/

/-- A sample constructed header. -/
def exBH : BlockHeader :=
  { Version := 1, Height := 7, PreviousBlockHash := List.replicate 32 170,
    Commitment := List.replicate 64 0, Timestamp := 1000,
    SignatureScript := [], OutputScript := [170] }

/-- A sample block with two transactions. -/
def exBlock : Block :=
  { header := exBH, Transactions := [NewTx ⟨[7, 9]⟩, NewTx ⟨[]⟩] }

/-! ## Claims -/

/-- C3: for headers `a`, `b` identical except possibly `signatureScript`,
the ForSigning encodings agree (the signature script is encoded as an
empty byte string regardless of its value, so ForSigning equals Full on
the header with a blanked signature script) and hence
`a.HashForSig = b.HashForSig`. -/
theorem hashForSig_ignores_sigScript (a b : BlockHeader)
    (h : a.Version = b.Version ∧ a.Height = b.Height ∧
      a.PreviousBlockHash = b.PreviousBlockHash ∧ a.Commitment = b.Commitment ∧
      a.Timestamp = b.Timestamp ∧ a.OutputScript = b.OutputScript) :
    a.writeTo true = ({ a with SignatureScript := [] } : BlockHeader).writeTo false ∧
      a.writeTo true = b.writeTo true ∧ a.HashForSig = b.HashForSig := by
  obtain ⟨h1, h2, h3, h4, h5, h6⟩ := h
  have henc : a.writeTo true = b.writeTo true := by
    simp [BlockHeader.writeTo, h1, h2, h3, h4, h5, h6]
  refine ⟨?_, henc, ?_⟩
  · simp [BlockHeader.writeTo]
  · simp only [BlockHeader.HashForSig, henc]

/-- C3 witness. -/
theorem hashForSig_ignores_sigScript_witness :
    ({ exBH with SignatureScript := [9] } : BlockHeader).writeTo true =
        ({ ({ exBH with SignatureScript := [9] } : BlockHeader) with
          SignatureScript := [] } : BlockHeader).writeTo false ∧
      ({ exBH with SignatureScript := [9] } : BlockHeader).writeTo true =
        ({ exBH with SignatureScript := [4, 5] } : BlockHeader).writeTo true ∧
      ({ exBH with SignatureScript := [9] } : BlockHeader).HashForSig =
        ({ exBH with SignatureScript := [4, 5] } : BlockHeader).HashForSig :=
  hashForSig_ignores_sigScript _ _ (by refine ⟨rfl, rfl, rfl, rfl, rfl, rfl⟩)

/-- C4: `SetTxRoot` and `SetStateRoot` never shrink the commitment and
never alter bytes outside the slot being written: `SetTxRoot` leaves bytes
at offset 32 and beyond unchanged; `SetStateRoot` leaves bytes [0,32) and
bytes at offset 64 and beyond unchanged, zero-filling any gap a short
buffer leaves before offset 32. -/
theorem setters_frame (bh : BlockHeader) (d : List Nat) (hd : d.length = 32) :
    bh.Commitment.length ≤ (bh.SetTxRoot d).Commitment.length ∧
      bh.Commitment.length ≤ (bh.SetStateRoot d).Commitment.length ∧
      (bh.SetTxRoot d).Commitment.drop 32 = bh.Commitment.drop 32 ∧
      (bh.SetStateRoot d).Commitment.drop 64 = bh.Commitment.drop 64 ∧
      (bh.SetStateRoot d).Commitment.take 32 =
        bh.Commitment.take 32 ++
          List.replicate (32 - min 32 bh.Commitment.length) 0 := by
  rw [setTxRoot_commitment bh d hd, setStateRoot_commitment bh d hd]
  have hXlen : ((bh.Commitment ++
      List.replicate (64 - bh.Commitment.length) 0).take 32).length = 32 := by
    simp only [List.length_take, List.length_append, List.length_replicate]
    omega
  refine ⟨?_, ?_, ?_, ?_, ?_⟩
  · simp only [List.length_append, hd, List.length_drop]
    omega
  · simp only [List.length_append, hXlen, hd, List.length_drop]
    omega
  · have := List.drop_left d (bh.Commitment.drop 32)
    rw [hd] at this
    exact this
  · have hlen : ((bh.Commitment ++
        List.replicate (64 - bh.Commitment.length) 0).take 32 ++ d).length = 64 := by
      rw [List.length_append, hXlen, hd]
    have := List.drop_left ((bh.Commitment ++
      List.replicate (64 - bh.Commitment.length) 0).take 32 ++ d)
      (bh.Commitment.drop 64)
    rw [hlen] at this
    exact this
  · have hlen : ((bh.Commitment ++
        List.replicate (64 - bh.Commitment.length) 0).take 32 ++ d).length = 64 := by
      rw [List.length_append, hXlen, hd]
    rw [List.take_append_eq_append_take, List.take_append_eq_append_take, hXlen,
      hlen]
    have h64 : (32 : Nat) - 64 = 0 := by norm_num
    simp only [Nat.sub_self, h64, List.take_zero, List.append_nil,
      List.take_take, Nat.min_self]
    exact take32_pad bh.Commitment

/-- C4 witness. -/
theorem setters_frame_witness :
    exBH.Commitment.length ≤ (exBH.SetTxRoot (List.replicate 32 5)).Commitment.length ∧
      exBH.Commitment.length ≤
        (exBH.SetStateRoot (List.replicate 32 5)).Commitment.length ∧
      (exBH.SetTxRoot (List.replicate 32 5)).Commitment.drop 32 =
        exBH.Commitment.drop 32 ∧
      (exBH.SetStateRoot (List.replicate 32 5)).Commitment.drop 64 =
        exBH.Commitment.drop 64 ∧
      (exBH.SetStateRoot (List.replicate 32 5)).Commitment.take 32 =
        exBH.Commitment.take 32 ++
          List.replicate (32 - min 32 exBH.Commitment.length) 0 :=
  setters_frame exBH (List.replicate 32 5) (by decide)

/-- C5: `TxRoot` reads bytes [0,32) of the commitment (zero digest when
shorter than 32), `StateRoot` reads bytes [32,64) (zero digest when
shorter than 64); starting from an empty commitment, `SetTxRoot d1` then
`SetStateRoot d2` yields `TxRoot = d1`, `StateRoot = d2` and a 64-byte
commitment. -/
theorem roots_access (bh : BlockHeader) (d1 d2 : List Nat)
    (h1 : d1.length = 32) (h2 : d2.length = 32) :
    (bh.TxRoot = if 32 ≤ bh.Commitment.length then bh.Commitment.take 32
        else List.replicate 32 0) ∧
      (bh.StateRoot = if 64 ≤ bh.Commitment.length then
          (bh.Commitment.drop 32).take 32 else List.replicate 32 0) ∧
      ((({ bh with Commitment := [] } : BlockHeader).SetTxRoot d1).SetStateRoot
        d2).TxRoot = d1 ∧
      ((({ bh with Commitment := [] } : BlockHeader).SetTxRoot d1).SetStateRoot
        d2).StateRoot = d2 ∧
      ((({ bh with Commitment := [] } : BlockHeader).SetTxRoot d1).SetStateRoot
        d2).Commitment.length = 64 := by
  have hc1 : (({ bh with Commitment := [] } : BlockHeader).SetTxRoot
      d1).Commitment = d1 := by
    rw [setTxRoot_commitment _ d1 h1]
    simp
  have htk : (d1 ++ List.replicate (64 - d1.length) 0).take 32 = d1 := by
    rw [List.take_append_eq_append_take, List.take_of_length_le (le_of_eq h1), h1]
    simp
  have hc2 : ((({ bh with Commitment := [] } : BlockHeader).SetTxRoot
      d1).SetStateRoot d2).Commitment = d1 ++ d2 := by
    rw [setStateRoot_commitment _ d2 h2, hc1]
    have hdrop : d1.drop 64 = [] := List.drop_eq_nil_of_le (by omega)
    rw [htk, hdrop]
    simp
  have hlen : (d1 ++ d2).length = 64 := by
    rw [List.length_append, h1, h2]
  refine ⟨rfl, rfl, ?_, ?_, ?_⟩
  · simp only [BlockHeader.TxRoot, hc2, hlen]
    rw [if_pos (by omega)]
    rw [List.take_append_eq_append_take, List.take_of_length_le (le_of_eq h1), h1]
    simp
  · simp only [BlockHeader.StateRoot, hc2, hlen]
    rw [if_pos (by omega)]
    have := List.drop_left d1 d2
    rw [h1] at this
    rw [this, List.take_of_length_le (le_of_eq h2)]
  · rw [hc2, hlen]

/-- C5 witness. -/
theorem roots_access_witness :
    (exBH.TxRoot = if 32 ≤ exBH.Commitment.length then exBH.Commitment.take 32
        else List.replicate 32 0) ∧
      (exBH.StateRoot = if 64 ≤ exBH.Commitment.length then
          (exBH.Commitment.drop 32).take 32 else List.replicate 32 0) ∧
      ((({ exBH with Commitment := [] } : BlockHeader).SetTxRoot
        (List.replicate 32 1)).SetStateRoot (List.replicate 32 2)).TxRoot =
        List.replicate 32 1 ∧
      ((({ exBH with Commitment := [] } : BlockHeader).SetTxRoot
        (List.replicate 32 1)).SetStateRoot (List.replicate 32 2)).StateRoot =
        List.replicate 32 2 ∧
      ((({ exBH with Commitment := [] } : BlockHeader).SetTxRoot
        (List.replicate 32 1)).SetStateRoot
        (List.replicate 32 2)).Commitment.length = 64 :=
  roots_access exBH (List.replicate 32 1) (List.replicate 32 2) (by decide)
    (by decide)

/-- C6: the ForSigning block encoding is exactly the header's ForSigning
encoding — the transaction count and list are omitted — so it is
byte-identical for two blocks sharing a header. -/
theorem forSigning_block_header_only (b : Block) (txs : List Tx) :
    b.writeTo true = b.header.WriteForSigTo ∧
      Block.writeTo { header := b.header, Transactions := txs } true =
        b.writeTo true := by
  constructor <;> simp [Block.writeTo, BlockHeader.WriteForSigTo]

/-- C7: `Scan` on a value that is not a byte slice fails with the distinct
InvalidStoredValue error, without decoding, leaving the receiver
unchanged; on byte-slice input that error is never produced. -/
theorem scan_rejects_non_bytes (bh : BlockHeader) (b : Block) (v : DriverValue)
    (h : ∀ bs, v ≠ DriverValue.bytes bs) :
    BlockHeader.Scan bh v = (bh, some ScanErr.invalidStoredValue) ∧
      Block.Scan b v = (b, some ScanErr.invalidStoredValue) ∧
      (∀ bs, (BlockHeader.Scan bh (DriverValue.bytes bs)).2 ≠
        some ScanErr.invalidStoredValue) ∧
      (∀ bs, (Block.Scan b (DriverValue.bytes bs)).2 ≠
        some ScanErr.invalidStoredValue) := by
  refine ⟨?_, ?_, ?_, ?_⟩
  · cases v with
    | bytes bs => exact absurd rfl (h bs)
    | int i => rfl
    | str s => rfl
    | null => rfl
  · cases v with
    | bytes bs => exact absurd rfl (h bs)
    | int i => rfl
    | str s => rfl
    | null => rfl
  · intro bs
    simp only [BlockHeader.Scan]
    cases hE : (bh.readFrom { input := bs, err := none }).2.err with
    | none => simp [hE]
    | some e => simp [hE]
  · intro bs
    simp only [Block.Scan]
    cases hE : (b.readFrom { input := bs, err := none }).2.err with
    | none => simp [hE]
    | some e => simp [hE]

/-- C7 witness. -/
theorem scan_rejects_non_bytes_witness :
    BlockHeader.Scan exBH DriverValue.null =
        (exBH, some ScanErr.invalidStoredValue) ∧
      Block.Scan exBlock DriverValue.null =
        (exBlock, some ScanErr.invalidStoredValue) ∧
      (∀ bs, (BlockHeader.Scan exBH (DriverValue.bytes bs)).2 ≠
        some ScanErr.invalidStoredValue) ∧
      (∀ bs, (Block.Scan exBlock (DriverValue.bytes bs)).2 ≠
        some ScanErr.invalidStoredValue) :=
  scan_rejects_non_bytes exBH exBlock DriverValue.null
    (fun _ h => DriverValue.noConfusion h)

/-- C8 counterexample: at timestamp 2^63 the `int64` conversion inside
`Time` wraps, so the returned instant is not 2^63 seconds after the
epoch — the claim fails for timestamps at or above 2^63. -/
theorem time_wraps_cex :
    ({ BlockHeader.zero with Timestamp := 2 ^ 63 } : BlockHeader).Time ≠
      { sec := ((2 ^ 63 : Nat) : Int), nsec := 0, utc := true } := by
  decide

/-- C8 (amended): for every timestamp below 2^63, `Time()` is the UTC
instant exactly `timestamp` whole seconds after the Unix epoch with zero
sub-second precision; at 2^63 and above the `int64(timestamp)` conversion
wraps and the instant lies `2^64 - timestamp` seconds before the epoch. -/
theorem time_seconds_utc (bh : BlockHeader) (h : bh.Timestamp < 2 ^ 63) :
    bh.Time = { sec := (bh.Timestamp : Int), nsec := 0, utc := true } := by
  simp only [BlockHeader.Time, toInt64, if_pos h]

/-- C8 witness. -/
theorem time_seconds_utc_witness :
    exBH.Time = { sec := ((1000 : Nat) : Int), nsec := 0, utc := true } :=
  time_seconds_utc exBH (by decide)

/-- C1: decoding the Full-mode encoding of any well-formed header or block
into a fresh (zero-valued) receiver succeeds, consumes the whole input,
and reproduces the value field-for-field, with the block's transaction
list in order. -/
theorem full_roundtrip (bh : BlockHeader) (b : Block)
    (hbh : bh.WellFormed) (hb : b.WellFormed) :
    BlockHeader.readFrom BlockHeader.zero { input := bh.WriteTo, err := none } =
        (bh, { input := [], err := none }) ∧
      Block.readFrom Block.zero { input := b.WriteTo, err := none } =
        (b, { input := [], err := none }) := by
  constructor
  · have := readFrom_writeTo_header bh hbh BlockHeader.zero []
    simpa [BlockHeader.WriteTo] using this
  · have := readFrom_writeTo_block b hb Block.zero []
    simpa [Block.WriteTo, Block.zero] using this

/-- C1 witness. -/
theorem full_roundtrip_witness :
    BlockHeader.readFrom BlockHeader.zero { input := exBH.WriteTo, err := none } =
        (exBH, { input := [], err := none }) ∧
      Block.readFrom Block.zero { input := exBlock.WriteTo, err := none } =
        (exBlock, { input := [], err := none }) :=
  full_roundtrip exBH exBlock (by decide) (by decide)

/-- C2 counterexample: a block input whose header and transaction count
decode but whose transaction payloads are truncated makes `Scan` return an
error while the receiving block still carries decoded transactions — the
claim that no partially decoded state remains is false at this input. -/
theorem scan_err_retains_txs_cex :
    ((Block.zero.Scan (DriverValue.bytes
        (BlockHeader.zero.WriteTo ++ 2 :: writeBytes [7]))).2).isSome = true ∧
      (Block.zero.Scan (DriverValue.bytes
        (BlockHeader.zero.WriteTo ++ 2 :: writeBytes [7]))).1.Transactions ≠
        [] := by
  constructor
  · decide
  · decide

/-- C2 (amended): block decoding aborts with the first error the sticky
reader records and `Scan` returns it, but the receiving block is not
reset: its transaction list only ever grows, so transactions decoded
before the error (after any pre-existing ones) remain appended. -/
theorem scan_error_appends_only (b : Block) (buf : List Nat)
    (_h : ((b.Scan (DriverValue.bytes buf)).2).isSome = true) :
    ∃ l, (b.Scan (DriverValue.bytes buf)).1.Transactions =
      b.Transactions ++ l := by
  simp only [Block.Scan, Block.readFrom]
  exact readFromLoop_acc _ _ _

/-- C2 witness. -/
theorem scan_error_appends_only_witness :
    ∃ l, (Block.zero.Scan (DriverValue.bytes
        (BlockHeader.zero.WriteTo ++ 2 :: writeBytes [9]))).1.Transactions =
      Block.zero.Transactions ++ l :=
  scan_error_appends_only Block.zero
    (BlockHeader.zero.WriteTo ++ 2 :: writeBytes [9]) (by decide)

/-- C9: header decoding never validates the commitment length: for any
byte-string commitment of any representable length (0, below 32, between
32 and 64, or above 64) the encoded header decodes successfully with the
commitment stored verbatim; the only decode failures are truncation or a
malformed length prefix, which the codec error type exhausts. -/
theorem header_decode_any_commitment (bh : BlockHeader) (c : List Nat)
    (hwf : bh.WellFormed) (hc : IsByteList c) (hlen : c.length < 2 ^ 64) :
    BlockHeader.readFrom BlockHeader.zero
        { input := ({ bh with Commitment := c } : BlockHeader).WriteTo,
          err := none } =
      (({ bh with Commitment := c } : BlockHeader),
        { input := [], err := none }) := by
  have hwf2 : ({ bh with Commitment := c } : BlockHeader).WellFormed := by
    obtain ⟨a1, a2, a3, a4, _, _, a7, a8, a9, a10, a11⟩ := hwf
    exact ⟨a1, a2, a3, a4, hc, hlen, a7, a8, a9, a10, a11⟩
  have := readFrom_writeTo_header _ hwf2 BlockHeader.zero []
  simpa [BlockHeader.WriteTo] using this

/-- C9 witness (a 3-byte commitment, shorter than one digest slot). -/
theorem header_decode_any_commitment_witness :
    BlockHeader.readFrom BlockHeader.zero
        { input := ({ exBH with Commitment := [1, 2, 3] } : BlockHeader).WriteTo,
          err := none } =
      (({ exBH with Commitment := [1, 2, 3] } : BlockHeader),
        { input := [], err := none }) :=
  header_decode_any_commitment exBH [1, 2, 3] (by decide) (by decide) (by decide)

/-- C10: block decoding appends to the receiver: a successful `Scan` of an
encoded block leaves pre-existing transactions in place and appends the
decoded ones after them, so exactly the encoded list is obtained only when
the receiver's transaction list is empty. -/
theorem scan_appends_to_receiver (old : Block) (b : Block) (hwf : b.WellFormed) :
    old.Scan (DriverValue.bytes b.WriteTo) =
        ({ header := b.header,
            Transactions := old.Transactions ++ b.Transactions }, none) ∧
      (old.Transactions = [] →
        (old.Scan (DriverValue.bytes b.WriteTo)).1.Transactions =
          b.Transactions) ∧
      (old.Transactions ≠ [] →
        (old.Scan (DriverValue.bytes b.WriteTo)).1.Transactions ≠
          b.Transactions) := by
  have key := readFrom_writeTo_block b hwf old []
  rw [List.append_nil] at key
  have hscan : old.Scan (DriverValue.bytes b.WriteTo) =
      ({ header := b.header,
          Transactions := old.Transactions ++ b.Transactions }, none) := by
    simp only [Block.Scan, Block.WriteTo, key]
    rfl
  refine ⟨hscan, ?_, ?_⟩
  · intro h
    rw [hscan, h]
    rfl
  · intro hne heq
    rw [hscan] at heq
    have : (old.Transactions ++ b.Transactions).length =
        b.Transactions.length := by
      exact congrArg List.length heq
    rw [List.length_append] at this
    exact hne (List.length_eq_zero.mp (by omega))

/-- C10 witness. -/
theorem scan_appends_to_receiver_witness :
    ({ header := BlockHeader.zero, Transactions := [NewTx ⟨[1]⟩] } :
        Block).Scan (DriverValue.bytes exBlock.WriteTo) =
        ({ header := exBlock.header,
            Transactions := [NewTx ⟨[1]⟩] ++ exBlock.Transactions }, none) ∧
      (([NewTx ⟨[1]⟩] : List Tx) = [] →
        (({ header := BlockHeader.zero, Transactions := [NewTx ⟨[1]⟩] } :
          Block).Scan (DriverValue.bytes exBlock.WriteTo)).1.Transactions =
          exBlock.Transactions) ∧
      (([NewTx ⟨[1]⟩] : List Tx) ≠ [] →
        (({ header := BlockHeader.zero, Transactions := [NewTx ⟨[1]⟩] } :
          Block).Scan (DriverValue.bytes exBlock.WriteTo)).1.Transactions ≠
          exBlock.Transactions) :=
  scan_appends_to_receiver
    { header := BlockHeader.zero, Transactions := [NewTx ⟨[1]⟩] } exBlock
    (by decide)

end ChainBC
